import Mathlib

/-!
Shallow embedding of the feedflow asynchronous workflow core: the task queue
(`src/task-queue.js`), the strategy/ranking code (`StrategyExecutor` in
`src/update_tasks.js`) and the workflow orchestrator
(`src/workflow/WorkflowManager.js`).  External collaborators (RSS fetch,
storage, AI calls, file IO) are modelled as explicit outcome environments;
the orchestration logic itself is translated line by line.
-/

namespace FeedFlow

/-- A loosely typed JavaScript field value, abstracted by what `Number(v)`
yields: `num n` is any value whose numeric conversion is the finite number
`n`, `nonNum` is any value whose conversion is NaN or infinite, and
`missing` is `undefined` or `null` (the values picked up by the `?? 0`
default).  All scores and thresholds in scope are integral, so finite
numbers are modelled as `Int`. -/
inductive JsVal where
  | num (n : Int)
  | nonNum
  | missing
deriving DecidableEq, Repr

/-- `Number(v ?? 0)`; `none` stands for NaN. -/
def jsNumber : JsVal → Option Int
  | .num n => some n
  | .nonNum => none
  | .missing => some 0

/-- `Number.isFinite(x) ? x : 0`. -/
def finiteOr0 : Option Int → Int
  | some n => n
  | none => 0

/-- A topic from the AI analysis payload; only the fields the ranking code
reads are kept, and the score fields are loosely typed as in the JSON. -/
structure Topic where
  title : String
  noveltyScore : JsVal
  impactScore : JsVal
deriving DecidableEq, Repr

/-- A topic together with the `_score` field added by
`StrategyExecutor.generateBlog`. -/
structure ScoredTopic where
  topic : Topic
  score : Int
deriving DecidableEq, Repr

/-- The `analysisConfig` thresholds, after the `Number(... ?? 0)`
conversions (numeric in every configuration in scope). -/
structure AnalysisConfig where
  minNoveltyScore : Int
  minImpactScore : Int
  minValueScore : Int
  maxTopics : Int
deriving DecidableEq, Repr

/-- `const scoredTopics = topics.map(...)` in `generateBlog`: each topic
gets `_score = (isFinite(novelty) ? novelty : 0) + (isFinite(impact) ?
impact : 0)` where `novelty = Number(topic.noveltyScore ?? 0)` and likewise
for impact. -/
def scoredTopics (topics : List Topic) : List ScoredTopic :=
  topics.map fun t =>
    { topic := t
      score := finiteOr0 (jsNumber t.noveltyScore) + finiteOr0 (jsNumber t.impactScore) }

/-- The filter predicate of `const filteredTopics = scoredTopics.filter(...)`:
novelty and impact (with the same NaN guards) must reach the configured
minima. -/
def topicPasses (cfg : AnalysisConfig) (t : Topic) : Bool :=
  decide (cfg.minNoveltyScore ≤ finiteOr0 (jsNumber t.noveltyScore)) &&
  decide (cfg.minImpactScore ≤ finiteOr0 (jsNumber t.impactScore))

def filteredTopics (cfg : AnalysisConfig) (topics : List Topic) : List ScoredTopic :=
  (scoredTopics topics).filter fun st => topicPasses cfg st.topic

/-- `const topicsToRank = filteredTopics.length > 0 ? filteredTopics :
scoredTopics`. -/
def topicsToRank (cfg : AnalysisConfig) (topics : List Topic) : List ScoredTopic :=
  if (filteredTopics cfg topics).isEmpty then scoredTopics topics
  else filteredTopics cfg topics

/-- Insert into a list already sorted by descending `_score`, placing the
new element before the first entry whose score is not larger.  Folded over
the list this computes exactly the stable descending sort performed by
`topicsToRank.sort((a, b) => b._score - a._score)` (JavaScript array sort
is stable). -/
def insertDesc (a : ScoredTopic) : List ScoredTopic → List ScoredTopic
  | [] => [a]
  | b :: l => if b.score ≤ a.score then a :: b :: l else b :: insertDesc a l

def sortDesc : List ScoredTopic → List ScoredTopic
  | [] => []
  | a :: l => insertDesc a (sortDesc l)

/-- `topicsToRank.sort(...).slice(0, Math.max(1, maxTopics))`, before the
`_score` field is stripped. -/
def selectedScored (cfg : AnalysisConfig) (topics : List Topic) : List ScoredTopic :=
  (sortDesc (topicsToRank cfg topics)).take (max 1 cfg.maxTopics).toNat

/-- `const selectedTopics = ...` — the slice above followed by
`.map(({ _score, ...rest }) => rest)`, which drops the internal score. -/
def selectedTopics (cfg : AnalysisConfig) (topics : List Topic) : List Topic :=
  (selectedScored cfg topics).map (·.topic)

/-- The spec wording of step 1 of the ranking algorithm, for comparison:
`score = noveltyScore + impactScore`, each missing or invalid numeric field
treated as 0. -/
def specScore (t : Topic) : Int :=
  (match t.noveltyScore with | .num n => n | _ => 0) +
  (match t.impactScore with | .num n => n | _ => 0)

/-- Descending sortedness by the `_score` key. -/
def sortedByScore (l : List ScoredTopic) : Prop :=
  l.Pairwise fun x y => y.score ≤ x.score

/-! ### Task queue (`src/task-queue.js`) -/

/-- The `TaskStatus` enum. -/
inductive TaskStatus where
  | pending
  | inProgress
  | completed
  | failed
  | cancelled
deriving DecidableEq, Repr

/-- The string value of each `TaskStatus` member, as stored in
`task.status`. -/
def statusString : TaskStatus → String
  | .pending => "pending"
  | .inProgress => "in_progress"
  | .completed => "completed"
  | .failed => "failed"
  | .cancelled => "cancelled"

/-- One entry of `task.steps`. -/
structure Step where
  step : String
  message : String
  timestamp : Nat
deriving DecidableEq, Repr

/-- A JavaScript `Error` value, identified by its message. -/
inductive JsError where
  | err (message : String)
deriving DecidableEq, Repr

/-! Payload types for workflow results, defined here because the task record
stores the executor result. -/

/-- A fetched RSS article (only identity matters to the orchestration
logic). -/
structure Article where
  title : String
deriving DecidableEq, Repr

/-- The parsed AI analysis payload, reduced to the `topics` field the
ranking code consumes. -/
structure Analysis where
  topics : List Topic
deriving DecidableEq, Repr

/-- The parsed AI blog draft returned by `generateBlog`. -/
structure BlogDraft where
  title : String
  description : String
  content : String
deriving DecidableEq, Repr

/-- One element of `generatedBlogs` as pushed by
`StrategyExecutor.executeStrategy`. -/
structure GeneratedBlog where
  title : String
  description : String
  path : String
  imagePath : Option String
  wordCount : Nat
  processedArticles : Nat
deriving DecidableEq, Repr

/-- The report built by `WorkflowManager.generateReport` (the fields the
claims talk about; `articleStats` and `systemInfo` are collaborator data
copied verbatim and are omitted). -/
structure Report where
  success : Bool
  startTime : Nat
  duration : Nat
  generatedBlogs : Nat
  blogs : List GeneratedBlog
deriving DecidableEq, Repr

/-- `WorkflowManager.createWorkflowResult(success, message)` with a null
data payload. -/
structure WorkflowResult where
  success : Bool
  message : String
deriving DecidableEq, Repr

/-- The value the full-workflow executor returns: either an early
`createWorkflowResult` object or the final report. -/
inductive FullResult where
  | wres (w : WorkflowResult)
  | report (r : Report)
deriving DecidableEq, Repr

/-- A task record, as created by `createTask`.  Wall-clock values are
natural-number timestamps in milliseconds. -/
structure Task where
  id : Nat
  type : String
  status : TaskStatus
  progress : Int
  startTime : Option Nat
  endTime : Option Nat
  duration : Option Int
  result : Option FullResult
  error : Option JsError
  steps : List Step
deriving DecidableEq, Repr

/-- The two distinct failures thrown by `startTask`, distinguished in the
code by their messages: `任务不存在: id` for an unknown id and
`任务状态不允许开始: status` (naming the offending current status) for a
task that is not PENDING. -/
inductive TaskError where
  | notFound (id : Nat)
  | invalidState (status : TaskStatus)
deriving DecidableEq, Repr

/-- The message carried by each `startTask` error. -/
def TaskError.text : TaskError → String
  | .notFound id => "任务不存在: task_" ++ toString id
  | .invalidState s => "任务状态不允许开始: " ++ statusString s

/-- The `TaskQueue` instance state: the insertion-ordered `tasks` map
(task ids are modelled as the numeric part of `task_${n}`), the `nextTaskId`
counter, and `running`, the set of task ids whose executor promise is
currently in flight inside `startTask` (between the synchronous prefix of
`startTask` and the settlement of `await executor(...)`). -/
structure QState where
  tasks : List (Nat × Task)
  nextTaskId : Nat
  running : List Nat
deriving DecidableEq, Repr

/-- The queue constructed by `new TaskQueue()`. -/
def initState : QState := { tasks := [], nextTaskId := 1, running := [] }

/-- `Map.prototype.get` on the insertion-ordered entry list. -/
def findTask : List (Nat × Task) → Nat → Option Task
  | [], _ => none
  | e :: l, id => if e.1 = id then some e.2 else findTask l id

/-- `getTask(taskId)` (`|| null` becomes the `Option`). -/
def getTask (q : QState) (id : Nat) : Option Task := findTask q.tasks id

/-- `Map.prototype.set`: overwrite in place when the key exists, append
otherwise. -/
def mapSet (l : List (Nat × Task)) (k : Nat) (v : Task) : List (Nat × Task) :=
  match findTask l k with
  | some _ => l.map fun e => if e.1 = k then (k, v) else e
  | none => l ++ [(k, v)]

/-- Mutating the record stored under a key (JavaScript object mutation
through the map). -/
def updateTask (l : List (Nat × Task)) (id : Nat) (f : Task → Task) :
    List (Nat × Task) :=
  l.map fun e => if e.1 = id then (e.1, f e.2) else e

/-- `createTask(type, options)`: allocates `task_${nextTaskId++}` with
status PENDING and progress 0 and stores it. -/
def createTask (q : QState) (ttype : String) : Nat × QState :=
  let taskId := q.nextTaskId
  let task : Task :=
    { id := taskId, type := ttype, status := .pending, progress := 0,
      startTime := none, endTime := none, duration := none,
      result := none, error := none, steps := [] }
  (taskId, { q with tasks := mapSet q.tasks taskId task,
                    nextTaskId := q.nextTaskId + 1 })

/-- The synchronous prefix of `startTask`: throw `任务不存在` when the id is
unknown, throw `任务状态不允许开始` when the task is not PENDING, otherwise
set status IN_PROGRESS, record `startTime` and launch the executor (the id
joins `running` until the executor settles). -/
def startTask_begin (q : QState) (id : Nat) (tNow : Nat) :
    Except TaskError QState :=
  match getTask q id with
  | none => .error (.notFound id)
  | some t =>
    if t.status ≠ .pending then .error (.invalidState t.status)
    else .ok { q with
      tasks := updateTask q.tasks id fun t0 =>
        { t0 with status := .inProgress, startTime := some tNow },
      running := id :: q.running }

/-- The continuation of `startTask` after `await executor(...)` settles: on
resolution set COMPLETED, `endTime`, `duration`, `result` and force
progress to 100; on rejection set FAILED, `endTime`, `duration`, `error`.
The code performs these writes unconditionally on whatever the task state
is at that moment. -/
def startTask_finish (q : QState) (id : Nat)
    (outcome : Except JsError FullResult) (tEnd : Nat) : QState :=
  if id ∈ q.running then
    { q with
      running := q.running.erase id,
      tasks := updateTask q.tasks id fun t =>
        match outcome with
        | .ok r =>
          { t with status := .completed, endTime := some tEnd,
                   duration := some ((tEnd : Int) - ((t.startTime.getD 0 : Nat) : Int)),
                   result := some r, progress := 100 }
        | .error e =>
          { t with status := .failed, endTime := some tEnd,
                   duration := some ((tEnd : Int) - ((t.startTime.getD 0 : Nat) : Int)),
                   error := some e } }
  else q

/-- `cancelTask(taskId)`: only flips IN_PROGRESS tasks to CANCELLED. -/
def cancelTask (q : QState) (id : Nat) : QState :=
  match getTask q id with
  | some t =>
    if t.status = .inProgress then
      { q with tasks := updateTask q.tasks id fun t0 => { t0 with status := .cancelled } }
    else q
  | none => q

/-- `Math.max(0, Math.min(100, progress))`. -/
def clampProgress (p : Int) : Int := max 0 (min 100 p)

/-- The step upsert of `updateProgress`: overwrite the first entry with the
given step name, else append a new entry. -/
def upsertStep (name msg : String) (tNow : Nat) : List Step → List Step
  | [] => [{ step := name, message := msg, timestamp := tNow }]
  | s :: rest =>
    if s.step = name then { s with message := msg, timestamp := tNow } :: rest
    else s :: upsertStep name msg tNow rest

/-- `updateProgress(taskId, progress, step, message)`: a no-op unless the
task exists and is IN_PROGRESS; clamps the percentage; upserts the step
entry when `step` is truthy (the empty string is falsy). -/
def updateProgress (q : QState) (id : Nat) (p : Int) (name msg : String)
    (tNow : Nat) : QState :=
  match getTask q id with
  | some t =>
    if t.status = .inProgress then
      { q with tasks := updateTask q.tasks id fun t0 =>
          { t0 with progress := clampProgress p,
                    steps := if name = "" then t0.steps
                             else upsertStep name msg tNow t0.steps } }
    else q
  | none => q

/-- A JavaScript number that is either an integer or NaN (the only values
`getStats` can produce). -/
inductive JNum where
  | int (n : Int)
  | nan
deriving DecidableEq, Repr

/-- Property read on a JavaScript object literal. -/
def objGet : List (String × JNum) → String → Option JNum
  | [], _ => none
  | e :: l, k => if e.1 = k then some e.2 else objGet l k

/-- Property write on a JavaScript object literal: overwrite in place or
append a new property. -/
def objSet : List (String × JNum) → String → JNum → List (String × JNum)
  | [], k, v => [(k, v)]
  | e :: l, k, v => if e.1 = k then (k, v) :: l else e :: objSet l k v

/-- JavaScript `obj[k]++`: incrementing an absent property stores NaN
(`undefined + 1` is NaN), and NaN stays NaN. -/
def objInc (o : List (String × JNum)) (k : String) : List (String × JNum) :=
  match objGet o k with
  | some (.int n) => objSet o k (.int (n + 1))
  | some .nan => objSet o k .nan
  | none => objSet o k .nan

/-- `getStats()`: the literal with `total` and the five per-status counters,
then `stats[task.status]++` for every task — the index is the status STRING
(`statusString`), not the literal key. -/
def getStats (q : QState) : List (String × JNum) :=
  q.tasks.foldl (fun o e => objInc o (statusString e.2.status))
    [("total", .int q.tasks.length), ("pending", .int 0), ("inProgress", .int 0),
     ("completed", .int 0), ("failed", .int 0), ("cancelled", .int 0)]

/-- The number of tasks currently in a given status (the quantity the spec
says `getStats` reports). -/
def countStatus (q : QState) (s : TaskStatus) : Nat :=
  (q.tasks.filter fun e => e.2.status == s).length

/-- `now - (task.endTime || task.startTime || now)` (Date objects are always
truthy, so the fallbacks fire exactly on null fields). -/
def taskAge (now : Nat) (t : Task) : Int :=
  (now : Int) - ((t.endTime.getD (t.startTime.getD now) : Nat) : Int)

/-- The deletion test of `cleanupTasks`. -/
def shouldCleanup (now : Nat) (maxAge : Int) (t : Task) : Bool :=
  (t.status == .completed || t.status == .failed) && decide (maxAge < taskAge now t)

/-- The `for (const [taskId, task] of this.tasks.entries())` loop of
`cleanupTasks`, deleting the entries that pass the test (deleting the
current entry of a live Map iterator is safe and does not skip entries). -/
def cleanupPass (now : Nat) (maxAge : Int) : List (Nat × Task) → List (Nat × Task)
  | [] => []
  | e :: l =>
    if shouldCleanup now maxAge e.2 then cleanupPass now maxAge l
    else e :: cleanupPass now maxAge l

/-- `cleanupTasks(maxAge)`. -/
def cleanupTasks (q : QState) (maxAge : Int) (now : Nat) : QState :=
  { q with tasks := cleanupPass now maxAge q.tasks }

/-! ### Registry operation traces

`startTask` is split at its single suspension point: `startBegin` is its
synchronous prefix and `startFinish` the continuation that runs when the
executor promise settles.  Other registry calls (for example `cancelTask`
from the HTTP cancel route, or progress callbacks of other tasks) can run
between the two, which is exactly how the single-threaded event loop
interleaves them. -/

inductive QOp where
  | create (ttype : String)
  | startBegin (id : Nat) (tNow : Nat)
  | startFinish (id : Nat) (outcome : Except JsError FullResult) (tEnd : Nat)
  | cancel (id : Nat)
  | progress (id : Nat) (p : Int) (name msg : String) (tNow : Nat)

/-- Apply one registry operation.  A thrown `startTask` leaves the state
unchanged; an executor settlement with no matching in-flight executor
cannot occur and is a no-op. -/
def applyOp (q : QState) : QOp → QState
  | .create ttype => (createTask q ttype).2
  | .startBegin id t =>
    match startTask_begin q id t with
    | .ok q2 => q2
    | .error _ => q
  | .startFinish id oc t => startTask_finish q id oc t
  | .cancel id => cancelTask q id
  | .progress id p n m t => updateProgress q id p n m t

def runOps (ops : List QOp) : QState := ops.foldl applyOp initState

/-- States reachable from a fresh `TaskQueue` by registry operations. -/
def Reachable (q : QState) : Prop := ∃ ops : List QOp, q = runOps ops

/-- Internal invariant of reachable queue states: task keys stay below the
counter, at most one executor is in flight per task, and a task with an
in-flight executor is IN_PROGRESS or CANCELLED. -/
def Inv (q : QState) : Prop :=
  (∀ e ∈ q.tasks, e.1 < q.nextTaskId) ∧
  q.running.Nodup ∧
  (∀ id ∈ q.running, ∃ t, getTask q id = some t ∧
    (t.status = .inProgress ∨ t.status = .cancelled))

/-- The status edges a single registry operation can realise: the documented
machine (PENDING to IN_PROGRESS, IN_PROGRESS to COMPLETED / FAILED /
CANCELLED) plus the two undocumented edges out of CANCELLED taken when an
executor that was already running settles after a cancellation. -/
def statusEdge (a b : TaskStatus) : Prop :=
  a = b ∨
  (a = .pending ∧ b = .inProgress) ∨
  (a = .inProgress ∧ (b = .completed ∨ b = .failed ∨ b = .cancelled)) ∨
  (a = .cancelled ∧ (b = .completed ∨ b = .failed))

/-! ### Strategy executor loop (`StrategyExecutor.executeStrategy`)

Each loop iteration calls the collaborators in sequence; the environment of
one iteration records the outcome each call would have (an `Except.error`
is a rejected promise, caught by the per-iteration `try`/`catch`). -/

/-- The collaborator outcomes one iteration of `executeStrategy` observes:
the unprocessed-article selection, `analyzeArticles`, `generateBlog`,
`generateBlogImage` (which never rejects — failures become `null`), the
format-and-save call, and `markArticleProcessed`. -/
structure IterEnv where
  articles : List Article
  analysis : Except JsError Analysis
  draft : Except JsError BlogDraft
  image : Option String
  saved : Except JsError String
  marked : Except JsError Unit

/-- What one iteration of the loop does: `break` when no unprocessed
articles exist, skip (log and continue) when any awaited call rejects,
otherwise push a generated-blog record. -/
inductive IterOutcome where
  | stop
  | skipped (e : JsError)
  | produced (b : GeneratedBlog)

/-- The body of one `for` iteration of `executeStrategy`, steps 1 to 6. -/
def runIteration (env : IterEnv) : IterOutcome :=
  if env.articles.isEmpty then .stop
  else
    match env.analysis with
    | .error e => .skipped e
    | .ok _ =>
      match env.draft with
      | .error e => .skipped e
      | .ok d =>
        match env.saved with
        | .error e => .skipped e
        | .ok p =>
          match env.marked with
          | .error e => .skipped e
          | .ok _ => .produced
              { title := d.title, description := d.description, path := p,
                imagePath := env.image, wordCount := d.content.length,
                processedArticles := env.articles.length }

/-- `executeStrategy(config, count, options)`: run `count` iterations (the
environment list has one entry per requested iteration), breaking on an
empty selection, skipping failed iterations, and returning the list of
successfully generated blogs. -/
def executeStrategy : List IterEnv → List GeneratedBlog
  | [] => []
  | env :: rest =>
    match runIteration env with
    | .stop => []
    | .skipped _ => executeStrategy rest
    | .produced b => b :: executeStrategy rest

/-- Whether an iteration runs to completion and pushes a blog. -/
def iterOk (env : IterEnv) : Bool :=
  match runIteration env with
  | .produced _ => true
  | _ => false

/-- `WorkflowManager.generateReport(generatedBlogs, config, startTime)`:
`success: true`, `generatedBlogs: generatedBlogs.length`, and the blog
list itself. -/
def generateReport (blogs : List GeneratedBlog) (startTime now : Nat) : Report :=
  { success := true, startTime := startTime, duration := now - startTime,
    generatedBlogs := blogs.length, blogs := blogs }

/-- The message of the early zero-articles result (`没有抓取到任何文章`). -/
def noArticlesMessage : String := "没有抓取到任何文章"

/-! ### Full workflow (`WorkflowManager.executeFullWorkflow`) -/

/-- Collaborator outcomes observed by one full-workflow run: `loadConfig`,
`fetchRSSFeeds`, the `saveArticle` loop, the per-iteration strategy
environments, `saveReport`, and the two `Date.now()` readings. -/
structure FullEnv where
  config : Except JsError Unit
  fetched : Except JsError (List Article)
  stored : Except JsError Unit
  strategy : List IterEnv
  reportSaved : Except JsError Unit
  start : Nat
  finish : Nat

/-- The executor body passed to `startTask` by `executeFullWorkflow`:
load config, fetch, return the `success:false` no-articles result when
nothing was fetched, otherwise store, run the strategy loop, build the
report, save it and return it.  Progress callbacks mutate only the task
record and are accounted for at the trace level. -/
def fullExecutor (env : FullEnv) : Except JsError FullResult := do
  let _ ← env.config
  let articles ← env.fetched
  if articles.isEmpty then
    return .wres { success := false, message := noArticlesMessage }
  let _ ← env.stored
  let report := generateReport (executeStrategy env.strategy) env.start env.finish
  let _ ← env.reportSaved
  return .report report

/-- `executeFullWorkflow` against the task queue: create the task, run the
synchronous prefix of `startTask`, then apply the settlement of the
executor.  Returns the task id and the final queue state. -/
def runFullWorkflow (q : QState) (env : FullEnv) (t0 t1 : Nat) : Nat × QState :=
  let p := createTask q "fullWorkflow"
  match startTask_begin p.2 p.1 t0 with
  | .ok q2 => (p.1, startTask_finish q2 p.1 (fullExecutor env) t1)
  | .error _ => (p.1, p.2)

/-! ### Fetch-only workflow (`WorkflowManager.executeFetchWorkflow`) -/

/-- The report object built inline by `executeFetchWorkflow` when articles
were fetched (`generatedBlogs: 0` is hard-coded; `articleStats` and
`systemInfo` are collaborator data and omitted). -/
structure FetchReport where
  success : Bool
  startTime : Nat
  duration : Nat
  generatedBlogs : Nat
  rssFeedCount : Nat
  articlesFetched : Nat
deriving DecidableEq, Repr

/-- `createWorkflowResult(success, message, data)` as returned by the
fetch-only executor: `data` is the report, or null on the zero-articles
path. -/
structure FetchResult where
  success : Bool
  message : String
  data : Option FetchReport
deriving DecidableEq, Repr

/-- Collaborator outcomes observed by one fetch-only run. -/
structure FetchEnv where
  config : Except JsError Unit
  feedCount : Nat
  fetched : Except JsError (List Article)
  stored : Except JsError Unit
  reportSaved : Except JsError Unit
  start : Nat
  finish : Nat

/-- The executor body passed to `startTask` by `executeFetchWorkflow`: load
config, fetch, return `createWorkflowResult(false, 没有抓取到任何文章)` (data
null, nothing saved) when nothing was fetched; otherwise store the
articles, build the inline report with `generatedBlogs: 0`, save it, and
return `createWorkflowResult(true, ..., report)`. -/
def fetchExecutor (env : FetchEnv) : Except JsError FetchResult := do
  let _ ← env.config
  let articles ← env.fetched
  if articles.isEmpty then
    return { success := false, message := noArticlesMessage, data := none }
  let _ ← env.stored
  let report : FetchReport :=
    { success := true, startTime := env.start, duration := env.finish - env.start,
      generatedBlogs := 0, rssFeedCount := env.feedCount,
      articlesFetched := articles.length }
  let _ ← env.reportSaved
  return { success := true, message := "选择性抓取执行成功", data := some report }

/-! ### Concrete instances used to state counterexamples and witnesses -/

/-- The task record `createTask` builds (used to phrase lookup lemmas). -/
def newTask (id : Nat) (ttype : String) : Task :=
  { id := id, type := ttype, status := .pending, progress := 0,
    startTime := none, endTime := none, duration := none,
    result := none, error := none, steps := [] }

/-- The task record of a run whose executor resolved with `r`. -/
def finishedTask (id : Nat) (ttype : String) (t0 t1 : Nat) (r : FullResult) : Task :=
  { id := id, type := ttype, status := .completed, progress := 100,
    startTime := some t0, endTime := some t1,
    duration := some ((t1 : Int) - (t0 : Int)),
    result := some r, error := none, steps := [] }

/-- A minimal report value used to instantiate executor outcomes in
concrete runs. -/
def tinyReport (d : Nat) : Report :=
  { success := true, startTime := 0, duration := d, generatedBlogs := 0, blogs := [] }

/-- Concrete task records for instantiating the transition theorem. -/
def pendingTask1 : Task := newTask 1 "fullWorkflow"

def startedTask1 : Task :=
  { pendingTask1 with status := .inProgress, startTime := some 0 }

/-- A queue whose single task has run to completion, for instantiating the
`startTask` failure theorem. -/
def qAfterComplete : QState :=
  runOps [.create "fullWorkflow", .startBegin 1 0,
    .startFinish 1 (.ok (.report (tinyReport 3))) 3]

def completedTask1 : Task :=
  { id := 1, type := "fullWorkflow", status := .completed, progress := 100,
    startTime := some 0, endTime := some 3, duration := some 3,
    result := some (.report (tinyReport 3)), error := none, steps := [] }

/-- The early result of a workflow run that fetched nothing. -/
def noArticlesResult : WorkflowResult :=
  { success := false, message := noArticlesMessage }

/-- A strategy iteration whose collaborator calls all succeed. -/
def okIterEnv (t : String) : IterEnv :=
  { articles := [{ title := "a" }], analysis := .ok { topics := [] },
    draft := .ok { title := t, description := "d", content := "c" },
    image := none, saved := .ok "p.md", marked := .ok () }

/-- A strategy iteration whose analysis call rejects. -/
def badIterEnv : IterEnv :=
  { articles := [{ title := "a" }], analysis := .error (.err "parse"),
    draft := .ok { title := "x", description := "d", content := "c" },
    image := none, saved := .ok "p.md", marked := .ok () }

/-- A full-workflow environment requesting three iterations whose second
iteration rejects during analysis. -/
def fullEnv3 : FullEnv :=
  { config := .ok (), fetched := .ok [{ title := "a" }], stored := .ok (),
    strategy := [okIterEnv "b1", badIterEnv, okIterEnv "b3"],
    reportSaved := .ok (), start := 0, finish := 9 }

/-- A full-workflow environment whose fetch returns nothing. -/
def fullEnvZero : FullEnv :=
  { config := .ok (), fetched := .ok [], stored := .ok (), strategy := [],
    reportSaved := .ok (), start := 0, finish := 9 }

/-- A fetch-only environment whose fetch returns nothing. -/
def fetchEnvZero : FetchEnv :=
  { config := .ok (), feedCount := 2, fetched := .ok [], stored := .ok (),
    reportSaved := .ok (), start := 0, finish := 5 }

/-- A fetch-only environment that fetches one article. -/
def fetchEnvOne : FetchEnv :=
  { config := .ok (), feedCount := 2, fetched := .ok [{ title := "a" }],
    stored := .ok (), reportSaved := .ok (), start := 0, finish := 5 }

/-- The report the one-article fetch run builds. -/
def fetchReportOne : FetchReport :=
  { success := true, startTime := 0, duration := 5, generatedBlogs := 0,
    rssFeedCount := 2, articlesFetched := 1 }

/-- The result value of the one-article fetch run. -/
def fetchResultOne : FetchResult :=
  { success := true, message := "选择性抓取执行成功", data := some fetchReportOne }

/-! ### Ranking lemmas -/

theorem insertDesc_length (a : ScoredTopic) (l : List ScoredTopic) :
    (insertDesc a l).length = l.length + 1 := by
  induction l with
  | nil => rfl
  | cons b m ih =>
    by_cases h : b.score ≤ a.score
    · simp [insertDesc, h]
    · simp [insertDesc, h, ih]

theorem sortDesc_length (l : List ScoredTopic) :
    (sortDesc l).length = l.length := by
  induction l with
  | nil => rfl
  | cons a m ih => simp [sortDesc, insertDesc_length, ih]

theorem insertDesc_mem (a x : ScoredTopic) (l : List ScoredTopic) :
    x ∈ insertDesc a l ↔ x = a ∨ x ∈ l := by
  induction l with
  | nil => simp [insertDesc]
  | cons b m ih =>
    by_cases h : b.score ≤ a.score
    · simp only [insertDesc, h, ite_true, List.mem_cons]
    · simp only [insertDesc, h, ite_false, List.mem_cons, ih]
      tauto

theorem insertDesc_sorted (a : ScoredTopic) (l : List ScoredTopic)
    (hl : sortedByScore l) : sortedByScore (insertDesc a l) := by
  induction l with
  | nil => simp [insertDesc, sortedByScore]
  | cons b m ih =>
    rw [sortedByScore, List.pairwise_cons] at hl
    obtain ⟨hb, hm⟩ := hl
    by_cases h : b.score ≤ a.score
    · rw [insertDesc]
      simp only [h, if_pos]
      rw [sortedByScore, List.pairwise_cons]
      constructor
      · intro y hy
        rcases List.mem_cons.mp hy with rfl | hy
        · exact h
        · exact le_trans (hb y hy) h
      · rw [sortedByScore, List.pairwise_cons] at *
        exact ⟨hb, hm⟩
    · rw [insertDesc]
      simp only [h, if_neg, ite_false]
      rw [sortedByScore, List.pairwise_cons]
      constructor
      · intro y hy
        rcases (insertDesc_mem a y m).mp hy with rfl | hy
        · exact le_of_lt (lt_of_not_le h)
        · exact hb y hy
      · exact ih hm

theorem sortDesc_sorted (l : List ScoredTopic) : sortedByScore (sortDesc l) := by
  induction l with
  | nil => simp [sortDesc, sortedByScore]
  | cons a m ih => exact insertDesc_sorted a (sortDesc m) ih

theorem insertDesc_filter_of_ne (a : ScoredTopic) (l : List ScoredTopic) (s : Int)
    (h : (a.score == s) = false) :
    (insertDesc a l).filter (fun x => x.score == s) =
      l.filter (fun x => x.score == s) := by
  induction l with
  | nil => simp [insertDesc, h]
  | cons b m ih =>
    by_cases hba : b.score ≤ a.score
    · simp [insertDesc, hba, h]
    · simp only [insertDesc, hba, ite_false, if_neg]
      rw [List.filter_cons, List.filter_cons]
      cases hbs : (b.score == s) <;> simp [hbs, ih]

theorem insertDesc_filter_of_eq (a : ScoredTopic) (l : List ScoredTopic) (s : Int)
    (h : (a.score == s) = true) (hl : sortedByScore l) :
    (insertDesc a l).filter (fun x => x.score == s) =
      a :: l.filter (fun x => x.score == s) := by
  induction l with
  | nil => simp [insertDesc, h]
  | cons b m ih =>
    rw [sortedByScore, List.pairwise_cons] at hl
    obtain ⟨hb, hm⟩ := hl
    by_cases hba : b.score ≤ a.score
    · simp only [insertDesc, hba, ite_true, if_pos]
      rw [List.filter_cons (x := a), h]
      simp
    · have has : a.score = s := by exact_mod_cast beq_iff_eq.mp h
      have hbs : (b.score == s) = false := by
        apply beq_eq_false_iff_ne.mpr
        intro hc
        exact hba (le_of_lt (by omega))
      simp only [insertDesc, hba, ite_false, if_neg]
      rw [List.filter_cons, List.filter_cons, hbs]
      simp only [Bool.false_eq_true, if_false]
      exact ih hm

theorem sortDesc_stable (l : List ScoredTopic) (s : Int) :
    (sortDesc l).filter (fun x => x.score == s) =
      l.filter (fun x => x.score == s) := by
  induction l with
  | nil => rfl
  | cons a m ih =>
    rw [sortDesc]
    cases h : (a.score == s)
    · rw [insertDesc_filter_of_ne a _ s h, ih, List.filter_cons, h]
      simp
    · rw [insertDesc_filter_of_eq a _ s h (sortDesc_sorted m), ih,
        List.filter_cons, h]
      simp

/-- C3: with thresholds `minNoveltyScore=6, minImpactScore=6, maxTopics=2`
and topics scored `(8,7), (5,9), (7,6)`, the selection filters out the
second topic for novelty below 6 and returns the first and third topics in
that order, with combined scores `[15, 13]`; and the descending sort is
stable — topics of equal combined score keep their original relative order
(stated as: filtering the sorted list to any fixed score yields the same
sublist as filtering the input). -/
theorem ranking_example_and_stability :
    selectedTopics
        { minNoveltyScore := 6, minImpactScore := 6, minValueScore := 8, maxTopics := 2 }
        [{ title := "t1", noveltyScore := .num 8, impactScore := .num 7 },
         { title := "t2", noveltyScore := .num 5, impactScore := .num 9 },
         { title := "t3", noveltyScore := .num 7, impactScore := .num 6 }] =
      [{ title := "t1", noveltyScore := .num 8, impactScore := .num 7 },
       { title := "t3", noveltyScore := .num 7, impactScore := .num 6 }] ∧
    (selectedScored
        { minNoveltyScore := 6, minImpactScore := 6, minValueScore := 8, maxTopics := 2 }
        [{ title := "t1", noveltyScore := .num 8, impactScore := .num 7 },
         { title := "t2", noveltyScore := .num 5, impactScore := .num 9 },
         { title := "t3", noveltyScore := .num 7, impactScore := .num 6 }]).map
        ScoredTopic.score = [15, 13] ∧
    ∀ (l : List ScoredTopic) (s : Int),
      (sortDesc l).filter (fun x => x.score == s) =
        l.filter (fun x => x.score == s) :=
  ⟨by decide, by decide, sortDesc_stable⟩

/-- C4: for every non-empty topic list and every configured `maxTopics`,
the selection is non-empty and its length is
`min(len(topicsToRank), max(1, maxTopics))`, where `topicsToRank` is the
filtered set when non-empty and otherwise the full scored set. -/
theorem ranking_output_nonempty_length (cfg : AnalysisConfig)
    (topics : List Topic) (h : topics ≠ []) :
    selectedTopics cfg topics ≠ [] ∧
    (selectedTopics cfg topics).length =
      min (topicsToRank cfg topics).length (max 1 cfg.maxTopics).toNat := by
  have hlen : (selectedTopics cfg topics).length =
      min (topicsToRank cfg topics).length (max 1 cfg.maxTopics).toNat := by
    rw [selectedTopics, selectedScored, List.length_map, List.length_take,
      sortDesc_length, Nat.min_comm]
  have httr : (topicsToRank cfg topics).length ≠ 0 := by
    rw [topicsToRank]
    by_cases hf : (filteredTopics cfg topics).isEmpty
    · simp only [hf, if_pos, scoredTopics, List.length_map]
      exact fun hc => h (List.eq_nil_of_length_eq_zero hc)
    · simp only [hf, if_neg, Bool.false_eq_true]
      intro hc
      exact hf (List.isEmpty_iff.mpr (List.eq_nil_of_length_eq_zero hc))
  have hk : 1 ≤ (max 1 cfg.maxTopics).toNat := by
    have h1 : (1 : Int) ≤ max 1 cfg.maxTopics := le_max_left 1 cfg.maxTopics
    omega
  refine ⟨?_, hlen⟩
  intro hnil
  rw [hnil] at hlen
  simp only [List.length_nil] at hlen
  omega

/-- Witness for C4 at a concrete input. -/
theorem ranking_output_nonempty_length_app :
    selectedTopics
        { minNoveltyScore := 6, minImpactScore := 6, minValueScore := 8, maxTopics := 2 }
        [{ title := "a", noveltyScore := .num 9, impactScore := .num 9 }] ≠ [] ∧
    (selectedTopics
        { minNoveltyScore := 6, minImpactScore := 6, minValueScore := 8, maxTopics := 2 }
        [{ title := "a", noveltyScore := .num 9, impactScore := .num 9 }]).length =
      min (topicsToRank
        { minNoveltyScore := 6, minImpactScore := 6, minValueScore := 8, maxTopics := 2 }
        [{ title := "a", noveltyScore := .num 9, impactScore := .num 9 }]).length
        (max 1 (2 : Int)).toNat :=
  ranking_output_nonempty_length _ _ (by decide)

/-- C9: the score computation of `generateBlog` is total — it assigns a
combined score to every topic of any input list (no exception path), and
that score agrees with the spec rule `noveltyScore + impactScore` with
missing or invalid numeric fields treated as 0; the final conjunct
evaluates it on a topic whose fields are missing and non-numeric. -/
theorem score_computation_total (topics : List Topic) :
    (scoredTopics topics).length = topics.length ∧
    (scoredTopics topics).map ScoredTopic.score = topics.map specScore ∧
    (scoredTopics [{ title := "m", noveltyScore := .missing,
                     impactScore := .nonNum }]).map ScoredTopic.score = [0] := by
  refine ⟨by simp [scoredTopics], ?_, by decide⟩
  induction topics with
  | nil => rfl
  | cons t ts ih =>
    simp only [scoredTopics, List.map_map, List.map_cons] at ih ⊢
    refine congrArg₂ _ ?_ ih
    rcases t with ⟨title, nov, imp⟩
    cases nov <;> cases imp <;> simp [specScore, jsNumber, finiteOr0]

/-! ### Task map lemmas -/

theorem findTask_updateTask_self (l : List (Nat × Task)) (id : Nat)
    (f : Task → Task) :
    findTask (updateTask l id f) id = (findTask l id).map f := by
  induction l with
  | nil => rfl
  | cons e m ih =>
    simp only [updateTask, List.map_cons] at ih ⊢
    by_cases h : e.1 = id
    · simp [findTask, h]
    · simp only [h, ite_false, if_neg, findTask, ih]

theorem findTask_updateTask_ne (l : List (Nat × Task)) (id id' : Nat)
    (f : Task → Task) (h : id' ≠ id) :
    findTask (updateTask l id f) id' = findTask l id' := by
  induction l with
  | nil => rfl
  | cons e m ih =>
    simp only [updateTask, List.map_cons] at ih ⊢
    by_cases he : e.1 = id
    · rw [findTask, findTask]
      simp only [he, ite_true, if_pos]
      rw [if_neg (by omega), if_neg (by omega)]
      exact ih
    · simp only [he, ite_false, if_neg, findTask, ih]

theorem findTask_append_of_some (l l2 : List (Nat × Task)) (id : Nat) (t : Task)
    (h : findTask l id = some t) : findTask (l ++ l2) id = some t := by
  induction l with
  | nil => exact absurd h (by simp [findTask])
  | cons e m ih =>
    rw [findTask] at h
    rw [List.cons_append, findTask]
    by_cases he : e.1 = id
    · simpa [he] using h
    · rw [if_neg he] at h ⊢
      exact ih h

theorem findTask_append_of_none (l l2 : List (Nat × Task)) (id : Nat)
    (h : findTask l id = none) : findTask (l ++ l2) id = findTask l2 id := by
  induction l with
  | nil => rfl
  | cons e m ih =>
    rw [findTask] at h
    rw [List.cons_append, findTask]
    by_cases he : e.1 = id
    · simp [he] at h
    · rw [if_neg he] at h ⊢
      exact ih h

theorem findTask_lt_none (l : List (Nat × Task)) (n : Nat)
    (h : ∀ e ∈ l, e.1 < n) : findTask l n = none := by
  induction l with
  | nil => rfl
  | cons e m ih =>
    rw [findTask]
    have he := h e (by simp)
    rw [if_neg (by omega)]
    exact ih fun x hx => h x (by simp [hx])

theorem updateTask_keysBound (l : List (Nat × Task)) (id : Nat)
    (f : Task → Task) (n : Nat) (h : ∀ e ∈ l, e.1 < n) :
    ∀ e ∈ updateTask l id f, e.1 < n := by
  intro e he
  rw [updateTask, List.mem_map] at he
  obtain ⟨e0, he0, heq⟩ := he
  have hk : e.1 = e0.1 := by
    rw [← heq]
    split <;> rfl
  rw [hk]
  exact h e0 he0

theorem mapSet_fresh (l : List (Nat × Task)) (k : Nat) (v : Task)
    (h : findTask l k = none) : mapSet l k v = l ++ [(k, v)] := by
  rw [mapSet, h]

theorem getTask_mk (ts : List (Nat × Task)) (nid : Nat) (rn : List Nat)
    (id : Nat) :
    getTask { tasks := ts, nextTaskId := nid, running := rn } id = findTask ts id :=
  rfl

/-! ### Queue invariant and its preservation -/

theorem inv_init : Inv initState := by
  refine ⟨?_, ?_, ?_⟩ <;> simp [initState, Inv]

theorem inv_applyOp (q : QState) (op : QOp) (h : Inv q) : Inv (applyOp q op) := by
  obtain ⟨hkeys, hnd, hrun⟩ := h
  cases op with
  | create ttype =>
    have hfresh : findTask q.tasks q.nextTaskId = none := findTask_lt_none _ _ hkeys
    simp only [applyOp, createTask, mapSet_fresh _ _ _ hfresh]
    refine ⟨?_, hnd, ?_⟩
    · intro e he
      dsimp only at he ⊢
      rcases List.mem_append.mp he with he | he
      · have := hkeys e he
        omega
      · rw [List.mem_singleton] at he
        subst he
        dsimp only
        omega
    · intro id hid
      obtain ⟨t, ht, hst⟩ := hrun id hid
      exact ⟨t, findTask_append_of_some _ _ _ _ ht, hst⟩
  | startBegin id0 t0 =>
    rcases hb : startTask_begin q id0 t0 with e | q2
    · simpa only [applyOp, hb] using ⟨hkeys, hnd, hrun⟩
    · simp only [applyOp, hb]
      rcases hg : getTask q id0 with _ | t
      · rw [startTask_begin, hg] at hb
        exact absurd hb (by simp)
      · rw [startTask_begin, hg] at hb
        dsimp only at hb
        split at hb
        · exact absurd hb (by simp)
        · rename_i hpend
          rw [not_not] at hpend
          injection hb with hb
          subst hb
          have hnotmem : id0 ∉ q.running := by
            intro hm
            obtain ⟨u, hu, hus⟩ := hrun id0 hm
            rw [hg] at hu
            injection hu with hu
            subst hu
            rcases hus with hus | hus <;> rw [hpend] at hus <;> exact absurd hus (by simp)
          refine ⟨?_, ?_, ?_⟩
          · intro e he
            dsimp only at he ⊢
            exact updateTask_keysBound _ _ _ _ hkeys e he
          · dsimp only
            simpa [hnotmem] using hnd
          · intro id hid
            dsimp only at hid
            rcases List.mem_cons.mp hid with rfl | hid
            · refine ⟨{ t with status := .inProgress, startTime := some t0 }, ?_,
                Or.inl rfl⟩
              rw [getTask_mk, findTask_updateTask_self]
              rw [getTask] at hg
              rw [hg]
              rfl
            · obtain ⟨u, hu, hus⟩ := hrun id hid
              have hne : id ≠ id0 := fun hc => hnotmem (hc ▸ hid)
              refine ⟨u, ?_, hus⟩
              rw [getTask_mk, findTask_updateTask_ne _ _ _ _ hne]
              exact hu
  | startFinish id0 oc t1 =>
    simp only [applyOp, startTask_finish]
    by_cases hm : id0 ∈ q.running
    · simp only [hm, if_pos, ite_true]
      refine ⟨?_, ?_, ?_⟩
      · intro e he
        dsimp only at he ⊢
        exact updateTask_keysBound _ _ _ _ hkeys e he
      · exact hnd.erase id0
      · intro id hid
        dsimp only at hid
        have hid' := (List.Nodup.mem_erase_iff hnd).mp hid
        obtain ⟨u, hu, hus⟩ := hrun id hid'.2
        refine ⟨u, ?_, hus⟩
        rw [getTask_mk, findTask_updateTask_ne _ _ _ _ hid'.1]
        exact hu
    · simpa only [hm, if_neg, ite_false] using ⟨hkeys, hnd, hrun⟩
  | cancel id0 =>
    simp only [applyOp, cancelTask]
    rcases hg : getTask q id0 with _ | t
    · exact ⟨hkeys, hnd, hrun⟩
    · dsimp only
      by_cases hst : t.status = .inProgress
      · rw [if_pos hst]
        refine ⟨?_, hnd, ?_⟩
        · intro e he
          dsimp only at he ⊢
          exact updateTask_keysBound _ _ _ _ hkeys e he
        · intro id hid
          dsimp only at hid
          obtain ⟨u, hu, hus⟩ := hrun id hid
          by_cases hne : id = id0
          · subst hne
            refine ⟨{ u with status := .cancelled }, ?_, Or.inr rfl⟩
            rw [getTask_mk, findTask_updateTask_self]
            rw [getTask] at hu
            rw [hu]
            rfl
          · refine ⟨u, ?_, hus⟩
            rw [getTask_mk, findTask_updateTask_ne _ _ _ _ hne]
            exact hu
      · rw [if_neg hst]
        exact ⟨hkeys, hnd, hrun⟩
  | progress id0 p nm msg t0 =>
    simp only [applyOp, updateProgress]
    rcases hg : getTask q id0 with _ | t
    · exact ⟨hkeys, hnd, hrun⟩
    · dsimp only
      by_cases hst : t.status = .inProgress
      · rw [if_pos hst]
        refine ⟨?_, hnd, ?_⟩
        · intro e he
          dsimp only at he ⊢
          exact updateTask_keysBound _ _ _ _ hkeys e he
        · intro id hid
          dsimp only at hid
          obtain ⟨u, hu, hus⟩ := hrun id hid
          by_cases hne : id = id0
          · subst hne
            refine ⟨{ u with progress := clampProgress p, steps := if nm = "" then u.steps else upsertStep nm msg t0 u.steps }, ?_, ?_⟩
            · rw [getTask_mk, findTask_updateTask_self]
              rw [getTask] at hu
              rw [hu]
              rfl
            · exact hus
          · refine ⟨u, ?_, hus⟩
            rw [getTask_mk, findTask_updateTask_ne _ _ _ _ hne]
            exact hu
      · rw [if_neg hst]
        exact ⟨hkeys, hnd, hrun⟩

theorem inv_foldl (ops : List QOp) (q : QState) (h : Inv q) :
    Inv (ops.foldl applyOp q) := by
  induction ops generalizing q with
  | nil => exact h
  | cons o os ih => exact ih _ (inv_applyOp q o h)

theorem reachable_inv (q : QState) (h : Reachable q) : Inv q := by
  obtain ⟨ops, rfl⟩ := h
  exact inv_foldl ops initState inv_init

theorem applyOp_statusEdge (q : QState) (op : QOp) (id : Nat) (t t' : Task)
    (hInv : Inv q) (h1 : getTask q id = some t)
    (h2 : getTask (applyOp q op) id = some t') :
    statusEdge t.status t'.status ∧
    ((t.status = .completed ∨ t.status = .failed) → t'.status = t.status) := by
  obtain ⟨hkeys, hnd, hrun⟩ := hInv
  cases op with
  | create ttype =>
    have hfresh : findTask q.tasks q.nextTaskId = none := findTask_lt_none _ _ hkeys
    have heq : getTask (applyOp q (.create ttype)) id = some t := by
      show findTask (mapSet q.tasks q.nextTaskId _) id = some t
      rw [mapSet_fresh _ _ _ hfresh]
      exact findTask_append_of_some _ _ _ _ h1
    rw [heq] at h2
    injection h2 with h2
    subst h2
    exact ⟨Or.inl rfl, fun _ => rfl⟩
  | startBegin id0 t0 =>
    rcases hb : startTask_begin q id0 t0 with e | q2
    · simp only [applyOp, hb] at h2
      rw [h1] at h2
      injection h2 with h2
      subst h2
      exact ⟨Or.inl rfl, fun _ => rfl⟩
    · simp only [applyOp, hb] at h2
      rcases hg : getTask q id0 with _ | u
      · rw [startTask_begin, hg] at hb
        exact absurd hb (by simp)
      · rw [startTask_begin, hg] at hb
        dsimp only at hb
        split at hb
        · exact absurd hb (by simp)
        · rename_i hpend
          rw [not_not] at hpend
          injection hb with hb
          subst hb
          by_cases hne : id = id0
          · subst hne
            have hut := hg.symm.trans h1
            injection hut with hut
            subst hut
            rw [getTask_mk, findTask_updateTask_self] at h2
            rw [getTask] at h1
            rw [h1] at h2
            injection h2 with h2
            subst h2
            refine ⟨Or.inr (Or.inl ⟨hpend, rfl⟩), ?_⟩
            intro hcf
            rcases hcf with hc | hc <;> rw [hpend] at hc <;> exact absurd hc (by simp)
          · rw [getTask_mk, findTask_updateTask_ne _ _ _ _ hne] at h2
            rw [getTask] at h1
            rw [h1] at h2
            injection h2 with h2
            subst h2
            exact ⟨Or.inl rfl, fun _ => rfl⟩
  | startFinish id0 oc t1 =>
    simp only [applyOp, startTask_finish] at h2
    by_cases hm : id0 ∈ q.running
    · rw [if_pos hm] at h2
      by_cases hne : id = id0
      · subst hne
        obtain ⟨u, hu, hus⟩ := hrun id hm
        have hut := hu.symm.trans h1
        injection hut with hut
        subst hut
        rw [getTask_mk, findTask_updateTask_self] at h2
        rw [getTask] at h1
        rw [h1] at h2
        cases oc with
        | ok r =>
          injection h2 with h2
          subst h2
          refine ⟨?_, ?_⟩
          · rcases hus with hs | hs
            · exact Or.inr (Or.inr (Or.inl ⟨hs, Or.inl rfl⟩))
            · exact Or.inr (Or.inr (Or.inr ⟨hs, Or.inl rfl⟩))
          · intro hcf
            rcases hus with hs | hs <;> rcases hcf with hc | hc <;>
              rw [hs] at hc <;> exact absurd hc (by simp)
        | error e =>
          injection h2 with h2
          subst h2
          refine ⟨?_, ?_⟩
          · rcases hus with hs | hs
            · exact Or.inr (Or.inr (Or.inl ⟨hs, Or.inr (Or.inl rfl)⟩))
            · exact Or.inr (Or.inr (Or.inr ⟨hs, Or.inr rfl⟩))
          · intro hcf
            rcases hus with hs | hs <;> rcases hcf with hc | hc <;>
              rw [hs] at hc <;> exact absurd hc (by simp)
      · rw [getTask_mk, findTask_updateTask_ne _ _ _ _ hne] at h2
        rw [getTask] at h1
        rw [h1] at h2
        injection h2 with h2
        subst h2
        exact ⟨Or.inl rfl, fun _ => rfl⟩
    · rw [if_neg hm] at h2
      rw [h1] at h2
      injection h2 with h2
      subst h2
      exact ⟨Or.inl rfl, fun _ => rfl⟩
  | cancel id0 =>
    simp only [applyOp, cancelTask] at h2
    rcases hg : getTask q id0 with _ | u
    · rw [hg] at h2
      dsimp only at h2
      rw [h1] at h2
      injection h2 with h2
      subst h2
      exact ⟨Or.inl rfl, fun _ => rfl⟩
    · rw [hg] at h2
      dsimp only at h2
      by_cases hst : u.status = .inProgress
      · rw [if_pos hst] at h2
        by_cases hne : id = id0
        · subst hne
          have hut := hg.symm.trans h1
          injection hut with hut
          subst hut
          rw [getTask_mk, findTask_updateTask_self] at h2
          rw [getTask] at h1
          rw [h1] at h2
          injection h2 with h2
          subst h2
          refine ⟨Or.inr (Or.inr (Or.inl ⟨hst, Or.inr (Or.inr rfl)⟩)), ?_⟩
          intro hcf
          rcases hcf with hc | hc <;> rw [hst] at hc <;> exact absurd hc (by simp)
        · rw [getTask_mk, findTask_updateTask_ne _ _ _ _ hne] at h2
          rw [getTask] at h1
          rw [h1] at h2
          injection h2 with h2
          subst h2
          exact ⟨Or.inl rfl, fun _ => rfl⟩
      · rw [if_neg hst] at h2
        rw [h1] at h2
        injection h2 with h2
        subst h2
        exact ⟨Or.inl rfl, fun _ => rfl⟩
  | progress id0 p nm msg t0 =>
    simp only [applyOp, updateProgress] at h2
    rcases hg : getTask q id0 with _ | u
    · rw [hg] at h2
      dsimp only at h2
      rw [h1] at h2
      injection h2 with h2
      subst h2
      exact ⟨Or.inl rfl, fun _ => rfl⟩
    · rw [hg] at h2
      dsimp only at h2
      by_cases hst : u.status = .inProgress
      · rw [if_pos hst] at h2
        by_cases hne : id = id0
        · subst hne
          have hut := hg.symm.trans h1
          injection hut with hut
          subst hut
          rw [getTask_mk, findTask_updateTask_self] at h2
          rw [getTask] at h1
          rw [h1] at h2
          injection h2 with h2
          subst h2
          exact ⟨Or.inl rfl, fun _ => rfl⟩
        · rw [getTask_mk, findTask_updateTask_ne _ _ _ _ hne] at h2
          rw [getTask] at h1
          rw [h1] at h2
          injection h2 with h2
          subst h2
          exact ⟨Or.inl rfl, fun _ => rfl⟩
      · rw [if_neg hst] at h2
        rw [h1] at h2
        injection h2 with h2
        subst h2
        exact ⟨Or.inl rfl, fun _ => rfl⟩

/-- C1, counterexample: after `createTask`, the synchronous prefix of
`startTask`, and a `cancelTask` issued while the executor is still running
(for example from the HTTP cancel route), the task is CANCELLED; when the
executor then resolves, the continuation of `startTask` overwrites the
status with COMPLETED — a later executor outcome does change the status of
a CANCELLED task, contradicting the claim. -/
theorem cancelled_task_overwritten_by_finish :
    (getTask (runOps [.create "fullWorkflow", .startBegin 1 0, .cancel 1]) 1).map
        Task.status = some .cancelled ∧
    (getTask (applyOp (runOps [.create "fullWorkflow", .startBegin 1 0, .cancel 1])
        (.startFinish 1 (.ok (.report (tinyReport 5))) 5)) 1).map Task.status =
      some .completed := by
  constructor
  · rfl
  · rfl

/-- C1, amended: in every reachable registry state, one registry operation
moves a task status only along the edges PENDING to IN_PROGRESS,
IN_PROGRESS to COMPLETED / FAILED / CANCELLED, or — when `cancelTask` ran
between the start of `startTask` and the settlement of its executor —
CANCELLED to COMPLETED / FAILED; in particular, once COMPLETED or FAILED
the status never changes again. -/
theorem task_status_transition_edges (q : QState) (op : QOp) (id : Nat)
    (t t' : Task) (hq : Reachable q) (h1 : getTask q id = some t)
    (h2 : getTask (applyOp q op) id = some t') :
    statusEdge t.status t'.status ∧
    ((t.status = .completed ∨ t.status = .failed) → t'.status = t.status) :=
  applyOp_statusEdge q op id t t' (reachable_inv q hq) h1 h2

/-- Witness for the amended C1 theorem at a concrete reachable state. -/
theorem task_status_transition_edges_app :
    statusEdge pendingTask1.status startedTask1.status ∧
    ((pendingTask1.status = .completed ∨ pendingTask1.status = .failed) →
      startedTask1.status = pendingTask1.status) :=
  task_status_transition_edges (runOps [.create "fullWorkflow"]) (.startBegin 1 0)
    1 pendingTask1 startedTask1 ⟨[.create "fullWorkflow"], rfl⟩ rfl rfl

/-- C8: `startTask` on a task that exists but is not PENDING fails with the
invalid-state error naming the offending current status and leaves the
registry state unchanged; `startTask` on an unknown id fails with the
distinct not-found error. -/
theorem startTask_error_cases (q : QState) (id : Nat) (tNow : Nat) :
    (∀ t, getTask q id = some t → t.status ≠ .pending →
      startTask_begin q id tNow = .error (.invalidState t.status) ∧
      applyOp q (.startBegin id tNow) = q) ∧
    (getTask q id = none →
      startTask_begin q id tNow = .error (.notFound id)) := by
  constructor
  · intro t ht hst
    have hb : startTask_begin q id tNow = .error (.invalidState t.status) := by
      rw [startTask_begin, ht]
      simp [hst]
    exact ⟨hb, by simp [applyOp, hb]⟩
  · intro h
    rw [startTask_begin, h]

/-- Witness for C8: starting the COMPLETED task 1 yields the invalid-state
error naming COMPLETED and changes nothing; starting the absent task 2
yields the not-found error. -/
theorem startTask_error_cases_app :
    (startTask_begin qAfterComplete 1 7 = .error (.invalidState .completed) ∧
      applyOp qAfterComplete (.startBegin 1 7) = qAfterComplete) ∧
    startTask_begin qAfterComplete 2 7 = .error (.notFound 2) :=
  ⟨(startTask_error_cases qAfterComplete 1 7).1 completedTask1 (by decide) (by decide),
   (startTask_error_cases qAfterComplete 2 7).2 (by decide)⟩

/-- C5, code bug: `getStats` initialises an `inProgress` counter but
increments `stats[task.status]`, and the status string of an IN_PROGRESS
task is `in_progress`; so for a registry holding exactly one IN_PROGRESS
task the returned `inProgress` count is 0 (not 1 as the claim states), a
stray `in_progress` property holding NaN appears, while `total` is 1. -/
theorem getStats_misses_inProgress :
    countStatus (runOps [.create "fullWorkflow", .startBegin 1 0]) .inProgress = 1 ∧
    objGet (getStats (runOps [.create "fullWorkflow", .startBegin 1 0])) "inProgress" =
      some (.int 0) ∧
    objGet (getStats (runOps [.create "fullWorkflow", .startBegin 1 0])) "in_progress" =
      some .nan ∧
    objGet (getStats (runOps [.create "fullWorkflow", .startBegin 1 0])) "total" =
      some (.int 1) := by
  refine ⟨rfl, rfl, rfl, rfl⟩

/-! ### Cleanup lemmas -/

theorem cleanupPass_mem (now : Nat) (maxAge : Int) (l : List (Nat × Task))
    (e : Nat × Task) :
    e ∈ cleanupPass now maxAge l ↔
      e ∈ l ∧ shouldCleanup now maxAge e.2 = false := by
  induction l with
  | nil => simp [cleanupPass]
  | cons a m ih =>
    rw [cleanupPass]
    by_cases h : shouldCleanup now maxAge a.2
    · rw [if_pos h, ih]
      constructor
      · rintro ⟨hm, hs⟩
        exact ⟨List.mem_cons_of_mem _ hm, hs⟩
      · rintro ⟨hm, hs⟩
        rcases List.mem_cons.mp hm with rfl | hm
        · rw [h] at hs
          cases hs
        · exact ⟨hm, hs⟩
    · rw [if_neg h]
      simp only [List.mem_cons, ih]
      constructor
      · rintro (rfl | ⟨hm, hs⟩)
        · exact ⟨Or.inl rfl, by simpa using h⟩
        · exact ⟨Or.inr hm, hs⟩
      · rintro ⟨rfl | hm, hs⟩
        · exact Or.inl rfl
        · exact Or.inr ⟨hm, hs⟩

theorem shouldCleanup_false_iff (now : Nat) (maxAge : Int) (t : Task) :
    shouldCleanup now maxAge t = false ↔
      ¬((t.status = .completed ∨ t.status = .failed) ∧ maxAge < taskAge now t) := by
  have h1 : shouldCleanup now maxAge t = true ↔
      ((t.status = .completed ∨ t.status = .failed) ∧ maxAge < taskAge now t) := by
    simp [shouldCleanup]
  constructor
  · intro h hc
    rw [h1.mpr hc] at h
    cases h
  · intro h
    cases hb : shouldCleanup now maxAge t
    · rfl
    · exact absurd (h1.mp hb) h

/-- C10: `cleanupTasks` keeps exactly the entries that are not
(COMPLETED-or-FAILED and older than `maxAge`); surviving entries are the
identical records, and a PENDING, IN_PROGRESS or CANCELLED task survives
whatever its age. -/
theorem cleanup_only_old_terminal (q : QState) (maxAge : Int) (now : Nat)
    (id : Nat) (t : Task) :
    (id, t) ∈ (cleanupTasks q maxAge now).tasks ↔
      ((id, t) ∈ q.tasks ∧
        ¬((t.status = .completed ∨ t.status = .failed) ∧ maxAge < taskAge now t)) := by
  show (id, t) ∈ cleanupPass now maxAge q.tasks ↔ _
  rw [cleanupPass_mem, shouldCleanup_false_iff]

/-- Witness for C10 at a concrete state holding one PENDING task far older
than the retention limit. -/
theorem cleanup_only_old_terminal_app :
    (1, pendingTask1) ∈ (cleanupTasks (runOps [.create "fullWorkflow"]) 3600000 5000000).tasks ↔
      ((1, pendingTask1) ∈ (runOps [.create "fullWorkflow"]).tasks ∧
        ¬((pendingTask1.status = .completed ∨ pendingTask1.status = .failed) ∧
          3600000 < taskAge 5000000 pendingTask1)) :=
  cleanup_only_old_terminal (runOps [.create "fullWorkflow"]) 3600000 5000000 1 pendingTask1

/-! ### Workflow run lemmas -/

theorem getTask_createTask_self (q : QState) (ttype : String)
    (hq : ∀ e ∈ q.tasks, e.1 < q.nextTaskId) :
    getTask (createTask q ttype).2 (createTask q ttype).1 =
      some (newTask q.nextTaskId ttype) := by
  show findTask (mapSet q.tasks q.nextTaskId _) q.nextTaskId = _
  rw [mapSet_fresh _ _ _ (findTask_lt_none _ _ hq),
    findTask_append_of_none _ _ _ (findTask_lt_none _ _ hq)]
  rw [findTask]
  simp [newTask]

theorem startTask_begin_pending (q : QState) (id : Nat) (tNow : Nat) (t : Task)
    (hg : getTask q id = some t) (hp : t.status = .pending) :
    startTask_begin q id tNow =
      .ok { q with
        tasks := updateTask q.tasks id fun t0 =>
          { t0 with status := .inProgress, startTime := some tNow },
        running := id :: q.running } := by
  rw [startTask_begin, hg]
  dsimp only
  rw [if_neg (by rw [hp]; simp)]

theorem startTask_finish_ok_getTask (q : QState) (id : Nat) (r : FullResult)
    (tEnd : Nat) (t : Task) (hm : id ∈ q.running) (hg : getTask q id = some t) :
    getTask (startTask_finish q id (.ok r) tEnd) id =
      some { t with
        status := .completed, endTime := some tEnd,
        duration := some ((tEnd : Int) - ((t.startTime.getD 0 : Nat) : Int)),
        result := some r, progress := 100 } := by
  rw [startTask_finish, if_pos hm, getTask_mk, findTask_updateTask_self]
  rw [getTask] at hg
  rw [hg]
  rfl

theorem runFullWorkflow_ok_getTask (q : QState) (env : FullEnv) (t0 t1 : Nat)
    (hq : ∀ e ∈ q.tasks, e.1 < q.nextTaskId) (r : FullResult)
    (hr : fullExecutor env = .ok r) :
    getTask (runFullWorkflow q env t0 t1).2 (runFullWorkflow q env t0 t1).1 =
      some (finishedTask q.nextTaskId "fullWorkflow" t0 t1 r) := by
  have h1 := getTask_createTask_self q "fullWorkflow" hq
  have hb := startTask_begin_pending (createTask q "fullWorkflow").2
    (createTask q "fullWorkflow").1 t0 (newTask q.nextTaskId "fullWorkflow") h1 rfl
  rw [runFullWorkflow]
  rw [hb]
  dsimp only
  rw [hr]
  have hg2 : getTask
      { (createTask q "fullWorkflow").2 with
        tasks := updateTask (createTask q "fullWorkflow").2.tasks
          (createTask q "fullWorkflow").1 fun t0' =>
            { t0' with status := .inProgress, startTime := some t0 },
        running := (createTask q "fullWorkflow").1 ::
          (createTask q "fullWorkflow").2.running }
      (createTask q "fullWorkflow").1 =
      some { newTask q.nextTaskId "fullWorkflow" with
        status := .inProgress, startTime := some t0 } := by
    rw [getTask_mk, findTask_updateTask_self]
    rw [getTask] at h1
    rw [h1]
    rfl
  rw [startTask_finish_ok_getTask _ _ r t1 _ (by exact List.mem_cons_self _ _) hg2]
  rfl

theorem runIteration_ne_stop (env : IterEnv) (h : env.articles ≠ []) :
    runIteration env ≠ .stop := by
  obtain ⟨arts, an, dr, im, sv, mk⟩ := env
  dsimp only at h ⊢
  rw [runIteration]
  dsimp only
  rw [if_neg (by simp [h])]
  cases an with
  | error e => simp
  | ok a =>
    cases dr with
    | error e => simp
    | ok d =>
      cases sv with
      | error e => simp
      | ok p =>
        cases mk with
        | error e => simp
        | ok u => simp

theorem executeStrategy_count (envs : List IterEnv)
    (h : ∀ e ∈ envs, e.articles ≠ []) :
    (executeStrategy envs).length = envs.countP iterOk := by
  induction envs with
  | nil => rfl
  | cons env rest ih =>
    have hne : env.articles ≠ [] := h env (by simp)
    have hrest : ∀ e ∈ rest, e.articles ≠ [] := fun e he => h e (by simp [he])
    rw [executeStrategy, List.countP_cons]
    cases hro : runIteration env with
    | stop => exact absurd hro (runIteration_ne_stop env hne)
    | skipped e =>
      have hio : iterOk env = false := by rw [iterOk, hro]
      rw [hio, ih hrest]
      simp
    | produced b =>
      have hio : iterOk env = true := by rw [iterOk, hro]
      rw [hio]
      simp only [List.length_cons, ih hrest, if_pos]

/-- C2: in a full-workflow run where the collaborators outside the strategy
loop succeed and every iteration has articles to work on, an iteration
whose analysis, generation or save call rejects is skipped while the loop
continues; the executor resolves with the report, the generated count of
the report equals exactly the number of iterations that ran to completion,
and the task terminates COMPLETED. -/
theorem iteration_failures_skipped_report_counts (q : QState) (env : FullEnv)
    (t0 t1 : Nat) (arts : List Article)
    (hq : ∀ e ∈ q.tasks, e.1 < q.nextTaskId)
    (hc : env.config = .ok ()) (hf : env.fetched = .ok arts) (hne : arts ≠ [])
    (hst : env.stored = .ok ()) (hrs : env.reportSaved = .ok ())
    (hiter : ∀ e ∈ env.strategy, e.articles ≠ []) :
    fullExecutor env =
      .ok (.report (generateReport (executeStrategy env.strategy) env.start env.finish)) ∧
    (generateReport (executeStrategy env.strategy) env.start env.finish).generatedBlogs =
      env.strategy.countP iterOk ∧
    (getTask (runFullWorkflow q env t0 t1).2 (runFullWorkflow q env t0 t1).1).map
      Task.status = some .completed := by
  have hexec : fullExecutor env =
      .ok (.report (generateReport (executeStrategy env.strategy) env.start env.finish)) := by
    obtain ⟨c, f, st, sg, rs, s0, s1⟩ := env
    dsimp only at hc hf hst hrs hiter ⊢
    subst hc
    subst hf
    subst hst
    subst hrs
    cases arts with
    | nil => exact absurd rfl hne
    | cons a as => rfl
  refine ⟨hexec, ?_, ?_⟩
  · show (executeStrategy env.strategy).length = _
    exact executeStrategy_count env.strategy hiter
  · rw [runFullWorkflow_ok_getTask q env t0 t1 hq _ hexec]
    rfl

/-- Witness for C2: three requested iterations, the second failing during
analysis, yield a COMPLETED task and a report counting the two successful
iterations — `generatedBlogs = 2`. -/
theorem iteration_failures_skipped_report_counts_app :
    (fullExecutor fullEnv3 =
        .ok (.report (generateReport (executeStrategy fullEnv3.strategy)
          fullEnv3.start fullEnv3.finish)) ∧
      (generateReport (executeStrategy fullEnv3.strategy) fullEnv3.start
          fullEnv3.finish).generatedBlogs = fullEnv3.strategy.countP iterOk ∧
      (getTask (runFullWorkflow initState fullEnv3 0 9).2
          (runFullWorkflow initState fullEnv3 0 9).1).map Task.status =
        some .completed) ∧
    (generateReport (executeStrategy fullEnv3.strategy) fullEnv3.start
      fullEnv3.finish).generatedBlogs = 2 :=
  ⟨iteration_failures_skipped_report_counts initState fullEnv3 0 9
      [{ title := "a" }]
      (by intro e he; simp [initState, runOps] at he)
      rfl rfl (by decide) rfl rfl (by decide),
   rfl⟩

/-- C7: a full-workflow run whose fetch step returns zero items terminates
early with the `success:false` no-articles result as the task result, and
the task terminal status is COMPLETED, not FAILED. -/
theorem full_zero_fetch_completed_no_articles (q : QState) (env : FullEnv)
    (t0 t1 : Nat) (hq : ∀ e ∈ q.tasks, e.1 < q.nextTaskId)
    (hc : env.config = .ok ()) (hf : env.fetched = .ok []) :
    (getTask (runFullWorkflow q env t0 t1).2 (runFullWorkflow q env t0 t1).1).map
      Task.status = some .completed ∧
    (getTask (runFullWorkflow q env t0 t1).2 (runFullWorkflow q env t0 t1).1).bind
      Task.result = some (.wres noArticlesResult) := by
  have hexec : fullExecutor env = .ok (.wres noArticlesResult) := by
    obtain ⟨c, f, st, sg, rs, s0, s1⟩ := env
    dsimp only at hc hf ⊢
    subst hc
    subst hf
    rfl
  rw [runFullWorkflow_ok_getTask q env t0 t1 hq _ hexec]
  exact ⟨rfl, rfl⟩

/-- Witness for C7 at a concrete zero-fetch run. -/
theorem full_zero_fetch_completed_no_articles_app :
    (getTask (runFullWorkflow initState fullEnvZero 2 9).2
      (runFullWorkflow initState fullEnvZero 2 9).1).map Task.status =
      some .completed ∧
    (getTask (runFullWorkflow initState fullEnvZero 2 9).2
      (runFullWorkflow initState fullEnvZero 2 9).1).bind Task.result =
      some (.wres noArticlesResult) :=
  full_zero_fetch_completed_no_articles initState fullEnvZero 2 9
    (by intro e he; simp [initState, runOps] at he) rfl rfl

/-- C6, counterexample: the fetch-only run that fetches zero items returns
the `success:false` result with a null data payload — there is no Report at
all, so its generated count is not 0 (it is absent), contradicting the
claim for the zero-items case. -/
theorem fetch_zero_items_no_report :
    fetchExecutor fetchEnvZero =
      .ok { success := false, message := noArticlesMessage, data := none } ∧
    ((fetchExecutor fetchEnvZero).map fun r => r.data.map FetchReport.generatedBlogs) =
      .ok none ∧
    ((fetchExecutor fetchEnvZero).map fun r => r.data.map FetchReport.generatedBlogs) ≠
      .ok (some 0) := by
  refine ⟨rfl, rfl, ?_⟩
  intro h
  rw [show ((fetchExecutor fetchEnvZero).map fun r => r.data.map FetchReport.generatedBlogs) = .ok (none : Option Nat) from rfl] at h
  injection h with h
  exact Option.noConfusion h

/-- C6, amended: whenever the fetch-only executor resolves, the generated
count inside its result is 0 exactly when at least one item was fetched; a
zero-items run carries no report (count absent), so no run ever reports a
nonzero generated count. -/
theorem fetch_report_generated_count (env : FetchEnv) (arts : List Article)
    (res : FetchResult) (hf : env.fetched = .ok arts)
    (hr : fetchExecutor env = .ok res) :
    res.data.map FetchReport.generatedBlogs =
      if arts.isEmpty then none else some 0 := by
  obtain ⟨c, fc, f, st, rs, s0, s1⟩ := env
  dsimp only at hf hr
  subst hf
  cases c with
  | error e => exact absurd hr (by intro h; injection h)
  | ok u =>
    cases arts with
    | nil =>
      injection hr with hr
      subst hr
      rfl
    | cons a as =>
      cases st with
      | error e => exact absurd hr (by intro h; injection h)
      | ok u2 =>
        cases rs with
        | error e => exact absurd hr (by intro h; injection h)
        | ok u3 =>
          injection hr with hr
          subst hr
          rfl

/-- Witness for the amended C6 theorem at a one-article fetch run. -/
theorem fetch_report_generated_count_app :
    fetchResultOne.data.map FetchReport.generatedBlogs =
      if ([{ title := "a" }] : List Article).isEmpty then none else some 0 :=
  fetch_report_generated_count fetchEnvOne [{ title := "a" }] fetchResultOne rfl rfl

end FeedFlow
